import Mathlib

/-!
Verification of the matrix-interpolation core of the Matrix_Project repository
(src/utils/mathUtils.ts, 2D part and 3D part) against its specification.

Numbers are modelled as real numbers: every JavaScript arithmetic operation on
finite doubles is translated to the corresponding exact real operation, and the
`Number.isFinite` guards on values derived from finite inputs are translated to
`True` (a non-finite time argument is modelled explicitly by the `JsNum` type
where a claim is about it).  Calls into the `mathjs` library (`math.qr`,
`math.eigs`, `math.inv`, `math.expm`, `math.log`) are modelled by the exact
mathematical operation they implement, in closed form for the 2x2 case; each
such definition carries a comment saying what it models.
-/

open scoped Classical

namespace MathUtils2

/-- Embeds the constant `EPSILON = 1e-9` of src/utils/mathUtils.ts (2D part). -/
def EPSILON : ℝ := 1e-9

/-- Embeds the constant `IMAGINARY_TOLERANCE = 1e-6`. -/
def IMAGINARY_TOLERANCE : ℝ := 1e-6

/-- Embeds the `Matrix2` type `[[m00, m01], [m10, m11]]` of real entries. -/
@[ext]
structure Matrix2 where
  m00 : ℝ
  m01 : ℝ
  m10 : ℝ
  m11 : ℝ

/-- Embeds the `Vector2` type `[x, y]`. -/
def Vector2 : Type := ℝ × ℝ

/-- Embeds `identityMatrix` (2D). -/
def identityMatrix : Matrix2 := ⟨1, 0, 0, 1⟩

/-- Embeds `matrixMultiply` (2D): the 2x2 row-by-column product loop. -/
def matrixMultiply (a b : Matrix2) : Matrix2 :=
  ⟨a.m00 * b.m00 + a.m01 * b.m10, a.m00 * b.m01 + a.m01 * b.m11,
   a.m10 * b.m00 + a.m11 * b.m10, a.m10 * b.m01 + a.m11 * b.m11⟩

/-- Embeds `matrixAdd` (2D). -/
def matrixAdd (a b : Matrix2) : Matrix2 :=
  ⟨a.m00 + b.m00, a.m01 + b.m01, a.m10 + b.m10, a.m11 + b.m11⟩

/-- Embeds `scaleMatrix` (2D). -/
def scaleMatrix (m : Matrix2) (scalar : ℝ) : Matrix2 :=
  ⟨m.m00 * scalar, m.m01 * scalar, m.m10 * scalar, m.m11 * scalar⟩

/-- Embeds `determinant2`. -/
def determinant2 (m : Matrix2) : ℝ := m.m00 * m.m11 - m.m01 * m.m10

/-- Embeds `diagMatrix` (2D). -/
def diagMatrix (values : ℝ × ℝ) : Matrix2 := ⟨values.1, 0, 0, values.2⟩

/-- Embeds `vectorNorm` (2D): `Math.hypot(v[0], v[1])`. -/
noncomputable def vectorNorm (v : ℝ × ℝ) : ℝ := Real.sqrt (v.1 ^ 2 + v.2 ^ 2)

/-- Embeds `normalizeVector` (2D): returns `[1, 0]` when the norm is below
`EPSILON`, otherwise the input divided by its norm. -/
noncomputable def normalizeVector (v : ℝ × ℝ) : ℝ × ℝ :=
  if vectorNorm v < EPSILON then (1, 0) else (v.1 / vectorNorm v, v.2 / vectorNorm v)

/-- Embeds `rotationMatrixFromAngle`. -/
noncomputable def rotationMatrixFromAngle (angle : ℝ) : Matrix2 :=
  ⟨Real.cos angle, -Real.sin angle, Real.sin angle, Real.cos angle⟩

/-- Embeds `applySignCorrection` (2D).  The source multiplies a column of `Q`
(resp. a row of `R`) by its sign only when that sign is negative; multiplying
by `+1` is the identity, so the unconditional product below is the same map.
The final orientation step flips the last column of `Q` and the last row of
`R` when the corrected `Q` has negative determinant, exactly as in the source. -/
noncomputable def applySignCorrection (Q R : Matrix2) : Matrix2 × Matrix2 :=
  let s0 : ℝ := if R.m00 ≥ 0 then 1 else -1
  let s1 : ℝ := if R.m11 ≥ 0 then 1 else -1
  let adjQ : Matrix2 := ⟨Q.m00 * s0, Q.m01 * s1, Q.m10 * s0, Q.m11 * s1⟩
  let adjR : Matrix2 := ⟨s0 * R.m00, s0 * R.m01, s1 * R.m10, s1 * R.m11⟩
  if determinant2 adjQ < 0 then
    (⟨adjQ.m00, -adjQ.m01, adjQ.m10, -adjQ.m11⟩,
     ⟨adjR.m00, adjR.m01, -adjR.m10, -adjR.m11⟩)
  else
    (adjQ, adjR)

/-- Embeds `TransformOptions`: the flag selecting the eigenvalue-interpolation
rule. -/
structure TransformOptions where
  linearEigenInterpolation : Bool := false

/-- Embeds `optionKey`. -/
def optionKey (options : TransformOptions) : String :=
  if options.linearEigenInterpolation then "linear" else "pow"

/-- Embeds `interpolateEigenvalue` for a real eigenvalue: the linear rule
`value*t + (1-t)*1` when the option is set, otherwise `value^t`.  This
exported helper is never called anywhere in the repository. -/
noncomputable def interpolateEigenvalue (value t : ℝ) (options : TransformOptions) : ℝ :=
  if options.linearEigenInterpolation then value * t + (1 - t) * 1 else value ^ t

/-- Models the JavaScript number domain where the distinction between finite
and non-finite values matters: a finite double is an exact real and the three
non-finite values are explicit constructors. -/
inductive JsNum where
  | num (x : ℝ)
  | nan
  | posInf
  | negInf

/-- Models `Number.isFinite`. -/
def JsNum.isFinite : JsNum → Bool
  | num _ => true
  | _ => false

/-- Models `Number(t.toFixed(6))` on a finite double: rounding to six decimal
places. -/
noncomputable def round6 (x : ℝ) : ℝ := (round (x * 1000000) : ℤ) / 1000000

/-- Embeds `timeKey`: quantizes a finite time to six decimals and maps any
non-finite time to NaN. -/
noncomputable def timeKey : JsNum → JsNum
  | JsNum.num x => JsNum.num (round6 x)
  | _ => JsNum.nan

/-- Embeds the `KanPathData` record (2D). -/
structure KanPathData where
  rotationAngle : ℝ
  logQ : Matrix2
  logD : Matrix2
  logU : Matrix2
  logUSquared : Matrix2
  diagLogs : ℝ × ℝ

/-- Models `Math.atan2(y, x)` as the argument of the complex number `x + i*y`
(the principal value in (-pi, pi], with `atan2(0, 0) = 0` as in JavaScript). -/
noncomputable def atan2 (y x : ℝ) : ℝ := Complex.arg ⟨x, y⟩

/-- Embeds `extractRotationGenerator` (2D): the angle `atan2(Q[1][0], Q[0][0])`
and the corresponding skew generator. -/
noncomputable def extractRotationGenerator (Q : Matrix2) : ℝ × Matrix2 :=
  let angle := atan2 Q.m10 Q.m00
  (angle, ⟨0, -angle, angle, 0⟩)

/-- Embeds `computeUnitUpperGenerators` (2D): `logU` keeps the single
off-diagonal entry of `U` and `logUSquared` is identically zero. -/
def computeUnitUpperGenerators (U : Matrix2) : Matrix2 × Matrix2 :=
  (⟨0, U.m01, 0, 0⟩, ⟨0, 0, 0, 0⟩)

/-- Models `math.qr` on a real 2x2 matrix by the closed-form Givens
factorization normalizing the first column: with `r = hypot(a, c)`, `Q` is the
rotation sending `e1` to the normalized first column and `R = Qᵀ*A`.  The
library returns some orthogonal `Q` and upper-triangular `R` with `Q*R = A`;
for an invertible `A` this factorization is unique up to column signs, which
the subsequent `applySignCorrection` canonicalizes, so this closed form
composed with the sign correction is faithful to the source pipeline.  The
degenerate case `r = 0` is unreachable from `buildKanPath` because the
determinant guard rejects matrices with a zero first column. -/
noncomputable def qr2 (A : Matrix2) : Matrix2 × Matrix2 :=
  let r := Real.sqrt (A.m00 ^ 2 + A.m10 ^ 2)
  if r = 0 then (identityMatrix, A)
  else
    (⟨A.m00 / r, -(A.m10 / r), A.m10 / r, A.m00 / r⟩,
     ⟨r, (A.m00 * A.m01 + A.m10 * A.m11) / r, 0, determinant2 A / r⟩)

/-- Embeds `buildKanPath` (2D): determinant guard, QR with sign correction,
positivity guard on the corrected diagonal, and generator extraction.  The
`Number.isFinite` checks are identically true in the real-number model. -/
noncomputable def buildKanPath (A : Matrix2) : Option KanPathData :=
  let detA := determinant2 A
  if detA ≤ 0 then none
  else
    let qr := qr2 A
    let corrected := applySignCorrection qr.1 qr.2
    let Q := corrected.1
    let R := corrected.2
    let d0 := R.m00
    let d1 := R.m11
    if d0 ≤ 0 ∨ d1 ≤ 0 then none
    else
      let Dinv := diagMatrix (1 / d0, 1 / d1)
      let U := matrixMultiply Dinv R
      let gen := extractRotationGenerator Q
      let upper := computeUnitUpperGenerators U
      some ⟨gen.1, gen.2, diagMatrix (Real.log d0, Real.log d1), upper.1, upper.2,
        (Real.log d0, Real.log d1)⟩

/-- Embeds the body of `evaluateKanPath` (2D) on a finite time value:
`Q(t) * D(t) * U(t)`. -/
noncomputable def evaluateKanPathCore (t : ℝ) (data : KanPathData) : Matrix2 :=
  let Qt := rotationMatrixFromAngle (data.rotationAngle * t)
  let Dt := diagMatrix (Real.exp (data.diagLogs.1 * t), Real.exp (data.diagLogs.2 * t))
  let tLogU := scaleMatrix data.logU t
  let t2 := 0.5 * t * t
  let logUSquaredTerm := scaleMatrix data.logUSquared t2
  let Ut := matrixAdd identityMatrix (matrixAdd tLogU logUSquaredTerm)
  matrixMultiply (matrixMultiply Qt Dt) Ut

/-- Embeds `evaluateKanPath` (2D) including the non-finite-time guard; note
that the body never reads the transform options. -/
noncomputable def evaluateKanPath : JsNum → KanPathData → Option Matrix2
  | JsNum.num t, data => some (evaluateKanPathCore t data)
  | _, _ => none

/-- Models the per-evaluator `Map<string, Map<number, Matrix2>>` cache as a
function from option key and quantized time to an optional cached matrix. -/
def KanCache : Type := String → ℝ → Option Matrix2

/-- Models the freshly created empty cache of a new evaluator. -/
def emptyCache : KanCache := fun _ _ => none

/-- Models `optionCache.set(tKey, evaluated)`. -/
noncomputable def cacheInsert (k : String) (tk : ℝ) (m : Matrix2) (c : KanCache) :
    KanCache :=
  fun k' tk' => if k' = k ∧ tk' = tk then some m else c k' tk'

/-- Embeds `getOrCreateMatrix` of `createKanEvaluator`: quantized cache lookup
keyed by option key and `timeKey(t)`, returning null for non-finite keys, and
otherwise the cached matrix or a freshly evaluated one (evaluated at the raw,
un-quantized `t`), which is then stored.  Returns the result together with the
updated cache state. -/
noncomputable def getOrCreateMatrix (data : KanPathData) (cache : KanCache)
    (t : JsNum) (options : TransformOptions) : Option Matrix2 × KanCache :=
  let k := optionKey options
  match timeKey t with
  | JsNum.num tk =>
    match cache k tk with
    | some m => (some m, cache)
    | none =>
      match evaluateKanPath t data with
      | some m => (some m, cacheInsert k tk m cache)
      | none => (none, cache)
  | _ => (none, cache)

/-- Embeds the observable construction result of `createKanEvaluator`: the
evaluator exists exactly when `buildKanPath` succeeds (the diagnostic
eigenvalue computation inside is wrapped in try/catch and cannot fail the
construction); its `getMatrixAt` is `getOrCreateMatrix` over the path data. -/
noncomputable def createKanEvaluator (A : Matrix2) : Option KanPathData :=
  buildKanPath A

/-- Helper: the canonical factor data produced by `buildKanPath` on a matrix
with positive determinant, written in closed form. -/
noncomputable def kanDataOf (A : Matrix2) : KanPathData :=
  let r := Real.sqrt (A.m00 ^ 2 + A.m10 ^ 2)
  let angle := atan2 (A.m10 / r) (A.m00 / r)
  ⟨angle, ⟨0, -angle, angle, 0⟩,
    diagMatrix (Real.log r, Real.log (determinant2 A / r)),
    ⟨0, (A.m00 * A.m01 + A.m10 * A.m11) / (A.m00 ^ 2 + A.m10 ^ 2), 0, 0⟩,
    ⟨0, 0, 0, 0⟩,
    (Real.log r, Real.log (determinant2 A / r))⟩

/-- The KAN path data of the unit shear `[[1,1],[0,1]]`, as produced by
`buildKanPath` (see `buildKanPath_shear`). -/
def shearKanData : KanPathData :=
  ⟨0, ⟨0, 0, 0, 0⟩, ⟨0, 0, 0, 0⟩, ⟨0, 1, 0, 0⟩, ⟨0, 0, 0, 0⟩, (0, 0)⟩

/-- Complex 2x2 matrices, used for the eigendecomposition-based backend whose
source-level matrix arithmetic is delegated to mathjs operations. -/
abbrev CMat2 := Matrix (Fin 2) (Fin 2) ℂ

/-- Models the discriminant of the characteristic polynomial of a 2x2 matrix,
used by the closed-form model of `math.eigs`. -/
def disc2 (A : Matrix2) : ℝ := (A.m00 + A.m11) ^ 2 - 4 * determinant2 A

/-- Models the complex square root of the discriminant. -/
noncomputable def sqrtDisc2 (A : Matrix2) : ℂ :=
  if 0 ≤ disc2 A then ((Real.sqrt (disc2 A) : ℝ) : ℂ)
  else Complex.I * ((Real.sqrt (-disc2 A) : ℝ) : ℂ)

/-- Models the first root of the characteristic polynomial. -/
noncomputable def eigA1 (A : Matrix2) : ℂ :=
  (((A.m00 + A.m11 : ℝ) : ℂ) + sqrtDisc2 A) / 2

/-- Models the second root of the characteristic polynomial. -/
noncomputable def eigA2 (A : Matrix2) : ℂ :=
  (((A.m00 + A.m11 : ℝ) : ℂ) - sqrtDisc2 A) / 2

/-- Models the result of `math.eigs` on a 2x2 matrix: two eigenpairs. -/
structure Eig2Result where
  l1 : ℂ
  v1 : ℂ × ℂ
  l2 : ℂ
  v2 : ℂ × ℂ

/-- Models `math.eigs` on a real 2x2 matrix by exact algebra: the roots of the
characteristic polynomial with matching eigenvector columns.  For a diagonal
matrix the eigenpairs are `(a, e1)` and `(d, e2)`; otherwise the eigenvector
for a root `l` is `(b, l - a)` when `b ≠ 0`, and `(l - d, c)` when `b = 0`
and `c ≠ 0`.  When the discriminant vanishes on a non-diagonal (defective)
matrix the two columns coincide, making the eigenvector matrix singular;
the singularity guard below then models the failure of the library's
eigendecomposition/inversion on defective matrices. -/
noncomputable def eig2 (A : Matrix2) : Eig2Result :=
  if A.m01 = 0 ∧ A.m10 = 0 then
    ⟨((A.m00 : ℝ) : ℂ), (1, 0), ((A.m11 : ℝ) : ℂ), (0, 1)⟩
  else if A.m01 ≠ 0 then
    ⟨eigA1 A, (((A.m01 : ℝ) : ℂ), eigA1 A - ((A.m00 : ℝ) : ℂ)),
     eigA2 A, (((A.m01 : ℝ) : ℂ), eigA2 A - ((A.m00 : ℝ) : ℂ))⟩
  else
    ⟨eigA1 A, (eigA1 A - ((A.m11 : ℝ) : ℂ), ((A.m10 : ℝ) : ℂ)),
     eigA2 A, (eigA2 A - ((A.m11 : ℝ) : ℂ), ((A.m10 : ℝ) : ℂ))⟩

/-- Embeds `isExpLogEigenvalueAllowed`: the finiteness checks are identically
true in the real-number model; an eigenvalue with non-negligible imaginary
part is allowed, and otherwise the real part must exceed `EPSILON`. -/
def isExpLogEigenvalueAllowed (z : ℂ) : Prop :=
  |z.im| > IMAGINARY_TOLERANCE ∨ z.re > EPSILON

/-- Helper: the determinant of the eigenvector matrix assembled from the two
eigenvector columns; `math.inv` fails exactly when it vanishes. -/
def eigVdet (e : Eig2Result) : ℂ := e.v1.1 * e.v2.2 - e.v2.1 * e.v1.2

/-- Models the eigenvector matrix `V` assembled column-by-column as in the
source. -/
noncomputable def eigV (e : Eig2Result) : CMat2 :=
  Matrix.of ![![e.v1.1, e.v2.1], ![e.v1.2, e.v2.2]]

/-- Models `math.inv(V)` by the closed-form 2x2 inverse. -/
noncomputable def eigVinv (e : Eig2Result) : CMat2 :=
  Matrix.of ![![e.v2.2 / eigVdet e, -e.v2.1 / eigVdet e],
              ![-e.v1.2 / eigVdet e, e.v1.1 / eigVdet e]]

/-- Models `math.diag(logDiagValues)` with the principal complex logarithm of
each eigenvalue. -/
noncomputable def eigLogDiag (e : Eig2Result) : CMat2 :=
  Matrix.of ![![Complex.log e.l1, 0], ![0, Complex.log e.l2]]

/-- Embeds `logMatrix = V * (logDiag * Vinv)`. -/
noncomputable def expLogMatrix (A : Matrix2) : CMat2 :=
  eigV (eig2 A) * (eigLogDiag (eig2 A) * eigVinv (eig2 A))

/-- Embeds the observable construction result of `createExpLogEvaluator`:
determinant guard, zero-magnitude eigenvalue guard, admissibility guard, and
the eigenvector-matrix invertibility required by `math.inv` (a singular `V`
makes the library throw, which the surrounding try/catch turns into null). -/
noncomputable def createExpLogEvaluator (A : Matrix2) : Option CMat2 :=
  if |determinant2 A| < EPSILON then none
  else
    let e := eig2 A
    if Complex.abs e.l1 < EPSILON ∨ Complex.abs e.l2 < EPSILON then none
    else if ¬ (isExpLogEigenvalueAllowed e.l1 ∧ isExpLogEigenvalueAllowed e.l2) then none
    else if eigVdet e = 0 then none
    else some (expLogMatrix A)

/-- Embeds `toMatrix2` applied to the result of `math.expm`: each complex
entry is reduced to its real part (`toFiniteNumber` drops the imaginary
component). -/
noncomputable def toMatrix2 (M : CMat2) : Matrix2 :=
  ⟨(M 0 0).re, (M 0 1).re, (M 1 0).re, (M 1 1).re⟩

/-- Embeds the per-call evaluation of the exp-log backend at a finite time:
`toMatrix2(expm(multiply(logMatrix, t)))`, where `math.expm` is modelled by
the matrix exponential on complex 2x2 matrices. -/
noncomputable def expLogEvalCore (L : CMat2) (t : ℝ) : Matrix2 :=
  toMatrix2 (NormedSpace.exp ℂ ((t : ℂ) • L))

/-- Models the exp-log evaluator cache `Map<number, Matrix2>`. -/
def ExpLogCache : Type := ℝ → Option Matrix2

/-- Embeds `getMatrixAt` of `createExpLogEvaluator`: null for non-finite time,
otherwise the cached matrix under the quantized key or a fresh evaluation at
the raw time, which is then stored. -/
noncomputable def expLogGetMatrixAt (L : CMat2) (cache : ExpLogCache) :
    JsNum → Option Matrix2 × ExpLogCache
  | JsNum.num x =>
    let tk := round6 x
    match cache tk with
    | some m => (some m, cache)
    | none =>
      let m := expLogEvalCore L x
      (some m, fun tk' => if tk' = tk then some m else cache tk')
  | _ => (none, cache)

/-- Embeds the backend tag 'kan' | 'exp-log'. -/
inductive MatrixBackend where
  | kan
  | expLog

/-- Embeds the observable construction result of `createMatrixEvaluator`:
either backend's per-matrix data, or none when construction failed. -/
inductive EvaluatorModel where
  | kan (data : KanPathData)
  | expLog (L : CMat2)

/-- Embeds `createMatrixEvaluator(A, backend)`. -/
noncomputable def createMatrixEvaluator (A : Matrix2) :
    MatrixBackend → Option EvaluatorModel
  | MatrixBackend.expLog => (createExpLogEvaluator A).map EvaluatorModel.expLog
  | MatrixBackend.kan => (createKanEvaluator A).map EvaluatorModel.kan

/-- Embeds `calculateAt`: builds a fresh evaluator (so the cache is empty) and
queries its `getMatrixAt` once. -/
noncomputable def calculateAt (A : Matrix2) (t : JsNum) (options : TransformOptions)
    (backend : MatrixBackend) : Option Matrix2 :=
  match createMatrixEvaluator A backend with
  | none => none
  | some (EvaluatorModel.kan data) => (getOrCreateMatrix data emptyCache t options).1
  | some (EvaluatorModel.expLog L) => (expLogGetMatrixAt L (fun _ => none) t).1

end MathUtils2

namespace MathUtils3

/-- Embeds the constant `EPSILON = 1e-9` of the 3D part of mathUtils. -/
def EPSILON : ℝ := 1e-9

/-- Embeds the `Matrix3` type of real entries. -/
@[ext]
structure Matrix3 where
  m00 : ℝ
  m01 : ℝ
  m02 : ℝ
  m10 : ℝ
  m11 : ℝ
  m12 : ℝ
  m20 : ℝ
  m21 : ℝ
  m22 : ℝ

/-- Embeds `matrixMultiply` (3D). -/
def matrixMultiply (a b : Matrix3) : Matrix3 :=
  ⟨a.m00 * b.m00 + a.m01 * b.m10 + a.m02 * b.m20,
   a.m00 * b.m01 + a.m01 * b.m11 + a.m02 * b.m21,
   a.m00 * b.m02 + a.m01 * b.m12 + a.m02 * b.m22,
   a.m10 * b.m00 + a.m11 * b.m10 + a.m12 * b.m20,
   a.m10 * b.m01 + a.m11 * b.m11 + a.m12 * b.m21,
   a.m10 * b.m02 + a.m11 * b.m12 + a.m12 * b.m22,
   a.m20 * b.m00 + a.m21 * b.m10 + a.m22 * b.m20,
   a.m20 * b.m01 + a.m21 * b.m11 + a.m22 * b.m21,
   a.m20 * b.m02 + a.m21 * b.m12 + a.m22 * b.m22⟩

/-- Embeds `determinant3`. -/
def determinant3 (m : Matrix3) : ℝ :=
  m.m00 * (m.m11 * m.m22 - m.m12 * m.m21) -
    m.m01 * (m.m10 * m.m22 - m.m12 * m.m20) +
    m.m02 * (m.m10 * m.m21 - m.m11 * m.m20)

/-- Embeds `vectorNorm` (3D): `Math.hypot(v[0], v[1], v[2])`. -/
noncomputable def vectorNorm (v : ℝ × ℝ × ℝ) : ℝ :=
  Real.sqrt (v.1 ^ 2 + v.2.1 ^ 2 + v.2.2 ^ 2)

/-- Embeds `normalizeVector` (3D): returns `[1, 0, 0]` when the norm is below
`EPSILON`, otherwise the input divided by its norm. -/
noncomputable def normalizeVector (v : ℝ × ℝ × ℝ) : ℝ × ℝ × ℝ :=
  if vectorNorm v < EPSILON then (1, 0, 0)
  else (v.1 / vectorNorm v, v.2.1 / vectorNorm v, v.2.2 / vectorNorm v)

/-- Embeds `applySignCorrection` (3D), with the same unconditional-product
reading of the sign flips as in the 2D embedding; the orientation step flips
the last column of `Q` and the last row of `R`. -/
noncomputable def applySignCorrection (Q R : Matrix3) : Matrix3 × Matrix3 :=
  let s0 : ℝ := if R.m00 ≥ 0 then 1 else -1
  let s1 : ℝ := if R.m11 ≥ 0 then 1 else -1
  let s2 : ℝ := if R.m22 ≥ 0 then 1 else -1
  let adjQ : Matrix3 := ⟨Q.m00 * s0, Q.m01 * s1, Q.m02 * s2,
                         Q.m10 * s0, Q.m11 * s1, Q.m12 * s2,
                         Q.m20 * s0, Q.m21 * s1, Q.m22 * s2⟩
  let adjR : Matrix3 := ⟨s0 * R.m00, s0 * R.m01, s0 * R.m02,
                         s1 * R.m10, s1 * R.m11, s1 * R.m12,
                         s2 * R.m20, s2 * R.m21, s2 * R.m22⟩
  if determinant3 adjQ < 0 then
    (⟨adjQ.m00, adjQ.m01, -adjQ.m02,
      adjQ.m10, adjQ.m11, -adjQ.m12,
      adjQ.m20, adjQ.m21, -adjQ.m22⟩,
     ⟨adjR.m00, adjR.m01, adjR.m02,
      adjR.m10, adjR.m11, adjR.m12,
      -adjR.m20, -adjR.m21, -adjR.m22⟩)
  else
    (adjQ, adjR)

end MathUtils3

namespace MathUtils2

/-- Helper: a matrix with positive determinant has a nonzero first column. -/
lemma first_col_sq_pos (A : Matrix2) (h : 0 < determinant2 A) :
    0 < A.m00 ^ 2 + A.m10 ^ 2 := by
  rcases eq_or_ne A.m00 0 with h0 | h0
  · rcases eq_or_ne A.m10 0 with h1 | h1
    · exfalso
      rw [determinant2, h0, h1] at h
      simp at h
    · have := pow_two_pos_of_ne_zero h1
      nlinarith [sq_nonneg A.m00]
  · have := pow_two_pos_of_ne_zero h0
    nlinarith [sq_nonneg A.m10]

/-- Helper: the sign correction is the identity when both diagonal entries of
R are nonnegative and Q has nonnegative determinant. -/
lemma applySignCorrection_of_nonneg (Q R : Matrix2) (h0 : R.m00 ≥ 0) (h1 : R.m11 ≥ 0)
    (hq : 0 ≤ determinant2 Q) : applySignCorrection Q R = (Q, R) := by
  simp only [applySignCorrection]
  rw [if_pos h0, if_pos h1]
  have hQ1 : (⟨Q.m00 * 1, Q.m01 * 1, Q.m10 * 1, Q.m11 * 1⟩ : Matrix2) = Q := by
    ext <;> ring
  have hR1 : (⟨1 * R.m00, 1 * R.m01, 1 * R.m10, 1 * R.m11⟩ : Matrix2) = R := by
    ext <;> ring
  rw [hQ1, hR1, if_neg (not_lt.mpr hq)]

/-- Helper: on a matrix with positive determinant, `buildKanPath` succeeds and
returns the canonical factor data. -/
lemma buildKanPath_of_det_pos (A : Matrix2) (h : 0 < determinant2 A) :
    buildKanPath A = some (kanDataOf A) := by
  have hr2 : 0 < A.m00 ^ 2 + A.m10 ^ 2 := first_col_sq_pos A h
  have hr : 0 < Real.sqrt (A.m00 ^ 2 + A.m10 ^ 2) := Real.sqrt_pos.mpr hr2
  have hrr : Real.sqrt (A.m00 ^ 2 + A.m10 ^ 2) ^ 2 = A.m00 ^ 2 + A.m10 ^ 2 :=
    Real.sq_sqrt hr2.le
  set r := Real.sqrt (A.m00 ^ 2 + A.m10 ^ 2) with hrdef
  have hqr : qr2 A =
      (⟨A.m00 / r, -(A.m10 / r), A.m10 / r, A.m00 / r⟩,
       ⟨r, (A.m00 * A.m01 + A.m10 * A.m11) / r, 0, determinant2 A / r⟩) := by
    simp only [qr2]
    rw [if_neg hr.ne']
  have hdetQ : determinant2 ⟨A.m00 / r, -(A.m10 / r), A.m10 / r, A.m00 / r⟩ = 1 := by
    simp only [determinant2]
    field_simp
    linarith [hrr]
  have hsign : applySignCorrection ⟨A.m00 / r, -(A.m10 / r), A.m10 / r, A.m00 / r⟩
      ⟨r, (A.m00 * A.m01 + A.m10 * A.m11) / r, 0, determinant2 A / r⟩ =
      (⟨A.m00 / r, -(A.m10 / r), A.m10 / r, A.m00 / r⟩,
       ⟨r, (A.m00 * A.m01 + A.m10 * A.m11) / r, 0, determinant2 A / r⟩) := by
    apply applySignCorrection_of_nonneg
    · exact hr.le
    · exact (div_pos h hr).le
    · rw [hdetQ]; norm_num
  simp only [buildKanPath, hqr, hsign]
  rw [if_neg (not_le.mpr h)]
  have hd1 : 0 < determinant2 A / r := div_pos h hr
  rw [if_neg (by push_neg; exact ⟨hr, hd1⟩)]
  simp only [kanDataOf, Option.some.injEq]
  have h1 : r ≠ 0 := hr.ne'
  have h2 : determinant2 A / r ≠ 0 := hd1.ne'
  have hU : matrixMultiply (diagMatrix (1 / r, 1 / (determinant2 A / r)))
      ⟨r, (A.m00 * A.m01 + A.m10 * A.m11) / r, 0, determinant2 A / r⟩ =
      ⟨1, (A.m00 * A.m01 + A.m10 * A.m11) / (A.m00 ^ 2 + A.m10 ^ 2), 0, 1⟩ := by
    ext
    · simp only [matrixMultiply, diagMatrix]
      field_simp
    · simp only [matrixMultiply, diagMatrix]
      rw [← hrr]
      field_simp
      exact Or.inl (pow_two r)
    · simp only [matrixMultiply, diagMatrix]
      ring
    · simp only [matrixMultiply, diagMatrix]
      field_simp
  rw [hU]
  rfl

/-- Helper: evaluating the KAN path at time 0 yields the identity matrix, for
every path data. -/
lemma evaluateKanPathCore_zero (data : KanPathData) :
    evaluateKanPathCore 0 data = identityMatrix := by
  unfold evaluateKanPathCore rotationMatrixFromAngle
  ext <;>
    simp [matrixMultiply, matrixAdd, scaleMatrix, diagMatrix, identityMatrix,
      Real.exp_zero]

/-- Helper: cosine and sine of `atan2` on a point of the unit circle. -/
lemma cos_sin_atan2_unit (y x : ℝ) (h : x ^ 2 + y ^ 2 = 1) :
    Real.cos (atan2 y x) = x ∧ Real.sin (atan2 y x) = y := by
  have hz : (⟨x, y⟩ : ℂ) ≠ 0 := by
    intro h0
    rw [Complex.ext_iff] at h0
    simp only [Complex.zero_re, Complex.zero_im] at h0
    rw [h0.1, h0.2] at h
    norm_num at h
  have habs : Complex.abs ⟨x, y⟩ = 1 := by
    rw [Complex.abs_apply, Complex.normSq_mk]
    rw [show x * x + y * y = 1 by nlinarith]
    exact Real.sqrt_one
  constructor
  · rw [atan2, Complex.cos_arg hz, habs]
    simp
  · rw [atan2, Complex.sin_arg, habs]
    simp

/-- Helper: evaluating the KAN path of a positive-determinant matrix at time 1
reconstructs the matrix exactly. -/
lemma evaluateKanPathCore_one (A : Matrix2) (h : 0 < determinant2 A) :
    evaluateKanPathCore 1 (kanDataOf A) = A := by
  have hr2 : 0 < A.m00 ^ 2 + A.m10 ^ 2 := first_col_sq_pos A h
  have hr : 0 < Real.sqrt (A.m00 ^ 2 + A.m10 ^ 2) := Real.sqrt_pos.mpr hr2
  have hrr : Real.sqrt (A.m00 ^ 2 + A.m10 ^ 2) ^ 2 = A.m00 ^ 2 + A.m10 ^ 2 :=
    Real.sq_sqrt hr2.le
  set r := Real.sqrt (A.m00 ^ 2 + A.m10 ^ 2) with hrdef
  have hunit : (A.m00 / r) ^ 2 + (A.m10 / r) ^ 2 = 1 := by
    field_simp
    linarith [hrr]
  obtain ⟨hcos, hsin⟩ := cos_sin_atan2_unit (A.m10 / r) (A.m00 / r) hunit
  have hexp0 : Real.exp (Real.log r) = r := Real.exp_log hr
  have hexp1 : Real.exp (Real.log (determinant2 A / r)) = determinant2 A / r :=
    Real.exp_log (div_pos h hr)
  unfold evaluateKanPathCore rotationMatrixFromAngle
  simp only [kanDataOf, mul_one, hexp0, hexp1, hcos, hsin]
  have hdet : determinant2 A = A.m00 * A.m11 - A.m01 * A.m10 := rfl
  ext
  · simp only [matrixMultiply, matrixAdd, scaleMatrix, diagMatrix, identityMatrix]
    field_simp
  · simp only [matrixMultiply, matrixAdd, scaleMatrix, diagMatrix, identityMatrix]
    rw [hdet, ← hrr]
    field_simp
    ring_nf
    linear_combination (-(A.m01 * r ^ 2)) * hrr
  · simp only [matrixMultiply, matrixAdd, scaleMatrix, diagMatrix, identityMatrix]
    field_simp
  · simp only [matrixMultiply, matrixAdd, scaleMatrix, diagMatrix, identityMatrix]
    rw [hdet, ← hrr]
    field_simp
    ring_nf
    linear_combination (-(A.m11 * r ^ 2)) * hrr

/-- Helper: the canonical KAN path data of the unit shear `[[1,1],[0,1]]`. -/
lemma buildKanPath_shear :
    buildKanPath ⟨1, 1, 0, 1⟩ = some shearKanData := by
  rw [shearKanData]
  have h : (0 : ℝ) < determinant2 ⟨1, 1, 0, 1⟩ := by norm_num [determinant2]
  rw [buildKanPath_of_det_pos _ h]
  have hs : Real.sqrt ((1 : ℝ) ^ 2 + 0 ^ 2) = 1 := by
    rw [show ((1 : ℝ) ^ 2 + 0 ^ 2) = 1 by norm_num]
    exact Real.sqrt_one
  have hone : ((⟨1, 0⟩ : ℂ)) = 1 := by
    rw [Complex.ext_iff]
    constructor <;> norm_num
  have hatan : atan2 (0 : ℝ) 1 = 0 := by
    rw [atan2, hone]
    exact Complex.arg_one
  simp only [kanDataOf, determinant2]
  norm_num [hs, hatan, diagMatrix]

/-- Helper: the KAN path of the unit shear is the linear shear family. -/
lemma evaluateKanPathCore_shear (t : ℝ) :
    evaluateKanPathCore t shearKanData = ⟨1, t, 0, 1⟩ := by
  unfold evaluateKanPathCore rotationMatrixFromAngle shearKanData
  ext <;>
    simp [matrixMultiply, matrixAdd, scaleMatrix, diagMatrix, identityMatrix]

/-- Helper: the six-decimal quantization maps 0 to 0. -/
lemma round6_zero : round6 0 = 0 := by
  unfold round6
  rw [zero_mul, round_zero]
  norm_num

/-- Helper: the six-decimal quantization maps 1e-7 to 0, the same key as 0. -/
lemma round6_em7 : round6 1e-7 = 0 := by
  unfold round6
  rw [show ((1e-7 : ℝ) * 1000000) = 1 / 10 by norm_num]
  rw [show round ((1 : ℝ) / 10) = 0 from round_eq_zero_iff.mpr (by constructor <;> norm_num)]
  norm_num

/-- Helper: the canonical KAN path data of `[[4,0],[0,1]]`. -/
lemma buildKanPath_diag41 :
    buildKanPath ⟨4, 0, 0, 1⟩ =
      some ⟨0, ⟨0, 0, 0, 0⟩, ⟨Real.log 4, 0, 0, 0⟩, ⟨0, 0, 0, 0⟩, ⟨0, 0, 0, 0⟩,
        (Real.log 4, 0)⟩ := by
  have h : (0 : ℝ) < determinant2 ⟨4, 0, 0, 1⟩ := by norm_num [determinant2]
  rw [buildKanPath_of_det_pos _ h]
  have hs : Real.sqrt 16 = 4 := by
    rw [show (16 : ℝ) = 4 ^ 2 by norm_num]
    exact Real.sqrt_sq (by norm_num)
  have hone : ((⟨1, 0⟩ : ℂ)) = 1 := by
    rw [Complex.ext_iff]
    constructor <;> norm_num
  have hatan : atan2 (0 : ℝ) 1 = 0 := by
    rw [atan2, hone]
    exact Complex.arg_one
  simp only [kanDataOf, determinant2]
  norm_num [hs, hatan, diagMatrix]

/-- Helper: the KAN evaluation of `[[4,0],[0,1]]` at t = 1/2 yields
`[[2,0],[0,1]]`: the diagonal follows the exponential rule `exp(t*log d)`. -/
lemma evaluateKanPathCore_diag41_half :
    evaluateKanPathCore (1 / 2)
      ⟨0, ⟨0, 0, 0, 0⟩, ⟨Real.log 4, 0, 0, 0⟩, ⟨0, 0, 0, 0⟩, ⟨0, 0, 0, 0⟩,
        (Real.log 4, 0)⟩ = ⟨2, 0, 0, 1⟩ := by
  have hlog : Real.log 4 * 2⁻¹ = Real.log 2 := by
    rw [show (4 : ℝ) = 2 ^ 2 by norm_num, Real.log_pow]
    push_cast
    ring
  have hexp : Real.exp (Real.log 4 * 2⁻¹) = 2 := by
    rw [hlog]
    exact Real.exp_log (by norm_num)
  unfold evaluateKanPathCore rotationMatrixFromAngle
  ext <;>
    simp [matrixMultiply, matrixAdd, scaleMatrix, diagMatrix, identityMatrix, hexp]

end MathUtils2

/-- C9: for all input matrices Q and R (2x2 or 3x3), the sign correction
applied after QR factorization preserves the product: if
`applySignCorrection(Q, R)` returns Q' and R', then Q'*R' = Q*R exactly. -/
theorem C9_applySignCorrection_preserves_product :
    (∀ Q R : MathUtils2.Matrix2,
      MathUtils2.matrixMultiply (MathUtils2.applySignCorrection Q R).1
          (MathUtils2.applySignCorrection Q R).2 =
        MathUtils2.matrixMultiply Q R) ∧
    (∀ Q R : MathUtils3.Matrix3,
      MathUtils3.matrixMultiply (MathUtils3.applySignCorrection Q R).1
          (MathUtils3.applySignCorrection Q R).2 =
        MathUtils3.matrixMultiply Q R) := by
  constructor
  · intro Q R
    unfold MathUtils2.applySignCorrection
    split_ifs <;> ext <;>
      simp only [MathUtils2.matrixMultiply] <;> split_ifs <;> dsimp only <;> ring
  · intro Q R
    unfold MathUtils3.applySignCorrection
    split_ifs <;> ext <;>
      simp only [MathUtils3.matrixMultiply] <;> split_ifs <;> dsimp only <;> ring

/-- Helper: a vector divided by a positive number whose square is the sum of
the squared components has unit Euclidean norm (2D form). -/
lemma sqrt_div_sq_add_div_sq (a b n : ℝ) (hn : 0 < n) (h : a ^ 2 + b ^ 2 = n ^ 2) :
    Real.sqrt ((a / n) ^ 2 + (b / n) ^ 2) = 1 := by
  rw [div_pow, div_pow, div_add_div_same, h, div_self (by positivity)]
  exact Real.sqrt_one

/-- Helper: 3D form of the unit-norm computation. -/
lemma sqrt_div_sq_add_div_sq3 (a b c n : ℝ) (hn : 0 < n)
    (h : a ^ 2 + b ^ 2 + c ^ 2 = n ^ 2) :
    Real.sqrt ((a / n) ^ 2 + (b / n) ^ 2 + (c / n) ^ 2) = 1 := by
  rw [div_pow, div_pow, div_pow, div_add_div_same, div_add_div_same, h,
    div_self (by positivity)]
  exact Real.sqrt_one

/-- C8: `normalizeVector` returns the canonical unit vector `[1,0]` (2D) or
`[1,0,0]` (3D) whenever the input norm is below `EPSILON = 1e-9`, and
otherwise returns the input divided by its norm; in both cases the result is
a unit vector, so the function is total and never divides by a near-zero
norm. -/
theorem C8_normalizeVector_spec :
    (∀ v : ℝ × ℝ,
      (MathUtils2.vectorNorm v < MathUtils2.EPSILON →
        MathUtils2.normalizeVector v = (1, 0)) ∧
      (¬ MathUtils2.vectorNorm v < MathUtils2.EPSILON →
        MathUtils2.normalizeVector v =
          (v.1 / MathUtils2.vectorNorm v, v.2 / MathUtils2.vectorNorm v)) ∧
      MathUtils2.vectorNorm (MathUtils2.normalizeVector v) = 1) ∧
    (∀ v : ℝ × ℝ × ℝ,
      (MathUtils3.vectorNorm v < MathUtils3.EPSILON →
        MathUtils3.normalizeVector v = (1, 0, 0)) ∧
      (¬ MathUtils3.vectorNorm v < MathUtils3.EPSILON →
        MathUtils3.normalizeVector v =
          (v.1 / MathUtils3.vectorNorm v, v.2.1 / MathUtils3.vectorNorm v,
            v.2.2 / MathUtils3.vectorNorm v)) ∧
      MathUtils3.vectorNorm (MathUtils3.normalizeVector v) = 1) := by
  constructor
  · intro v
    refine ⟨fun h => by simp [MathUtils2.normalizeVector, h], fun h => by
      simp [MathUtils2.normalizeVector, h], ?_⟩
    by_cases h : MathUtils2.vectorNorm v < MathUtils2.EPSILON
    · simp only [MathUtils2.normalizeVector, if_pos h]
      simp [MathUtils2.vectorNorm]
    · have hpos : 0 < MathUtils2.vectorNorm v := by
        have : (0 : ℝ) < MathUtils2.EPSILON := by norm_num [MathUtils2.EPSILON]
        linarith [not_lt.mp h]
      have hsq : v.1 ^ 2 + v.2 ^ 2 = MathUtils2.vectorNorm v ^ 2 :=
        (Real.sq_sqrt (by positivity : (0 : ℝ) ≤ v.1 ^ 2 + v.2 ^ 2)).symm
      simp only [MathUtils2.normalizeVector, if_neg h]
      exact sqrt_div_sq_add_div_sq v.1 v.2 (MathUtils2.vectorNorm v) hpos hsq
  · intro v
    refine ⟨fun h => by simp [MathUtils3.normalizeVector, h], fun h => by
      simp [MathUtils3.normalizeVector, h], ?_⟩
    by_cases h : MathUtils3.vectorNorm v < MathUtils3.EPSILON
    · simp only [MathUtils3.normalizeVector, if_pos h]
      simp [MathUtils3.vectorNorm]
    · have hpos : 0 < MathUtils3.vectorNorm v := by
        have : (0 : ℝ) < MathUtils3.EPSILON := by norm_num [MathUtils3.EPSILON]
        linarith [not_lt.mp h]
      have hsq : v.1 ^ 2 + v.2.1 ^ 2 + v.2.2 ^ 2 = MathUtils3.vectorNorm v ^ 2 :=
        (Real.sq_sqrt (by positivity : (0 : ℝ) ≤ v.1 ^ 2 + v.2.1 ^ 2 + v.2.2 ^ 2)).symm
      simp only [MathUtils3.normalizeVector, if_neg h]
      exact sqrt_div_sq_add_div_sq3 v.1 v.2.1 v.2.2 (MathUtils3.vectorNorm v) hpos hsq

/-- C8 witness: the branches of C8 evaluated at concrete inputs, with the
hypotheses discharged numerically. -/
theorem C8_normalizeVector_spec_witness :
    MathUtils2.normalizeVector (3, 4) = (3 / 5, 4 / 5) ∧
      MathUtils3.normalizeVector (0, 0, 0) = (1, 0, 0) := by
  have hnorm2 : MathUtils2.vectorNorm (3, 4) = 5 := by
    have : ((3 : ℝ) ^ 2 + 4 ^ 2) = 5 ^ 2 := by norm_num
    simp only [MathUtils2.vectorNorm, this]
    exact Real.sqrt_sq (by norm_num)
  have hnorm3 : MathUtils3.vectorNorm (0, 0, 0) = 0 := by
    simp [MathUtils3.vectorNorm]
  constructor
  · have h := ((C8_normalizeVector_spec.1 (3, 4)).2.1 (by
      rw [hnorm2]; norm_num [MathUtils2.EPSILON]))
    rw [hnorm2] at h
    exact h
  · exact (C8_normalizeVector_spec.2 (0, 0, 0)).1 (by
      rw [hnorm3]; norm_num [MathUtils3.EPSILON])

/-- C3: for every matrix A with det(A) ≤ 0, createMatrixEvaluator(A, "kan")
returns null from construction; and for every A with det(A) = 0, both the
"kan" and the "exp-log" backend return null from construction.  (The
non-finite-determinant case of the claim is vacuous in the real-number
model, where every value is finite.) -/
theorem C3_determinant_guards :
    (∀ A : MathUtils2.Matrix2, MathUtils2.determinant2 A ≤ 0 →
      MathUtils2.createMatrixEvaluator A MathUtils2.MatrixBackend.kan = none) ∧
    (∀ A : MathUtils2.Matrix2, MathUtils2.determinant2 A = 0 →
      MathUtils2.createMatrixEvaluator A MathUtils2.MatrixBackend.kan = none ∧
      MathUtils2.createMatrixEvaluator A MathUtils2.MatrixBackend.expLog = none) := by
  have hkan : ∀ A : MathUtils2.Matrix2, MathUtils2.determinant2 A ≤ 0 →
      MathUtils2.createMatrixEvaluator A MathUtils2.MatrixBackend.kan = none := by
    intro A h
    simp only [MathUtils2.createMatrixEvaluator, MathUtils2.createKanEvaluator,
      MathUtils2.buildKanPath, if_pos h, Option.map_none']
  refine ⟨hkan, fun A h => ⟨hkan A h.le, ?_⟩⟩
  simp only [MathUtils2.createMatrixEvaluator, MathUtils2.createExpLogEvaluator]
  rw [if_pos (by rw [h]; norm_num [MathUtils2.EPSILON])]
  rfl

/-- C3 witness: the guards evaluated at A = [[1,0],[0,-1]] (negative
determinant) and A = [[1,2],[2,4]] (zero determinant). -/
theorem C3_determinant_guards_witness :
    MathUtils2.createMatrixEvaluator ⟨1, 0, 0, -1⟩ MathUtils2.MatrixBackend.kan = none ∧
    MathUtils2.createMatrixEvaluator ⟨1, 2, 2, 4⟩ MathUtils2.MatrixBackend.kan = none ∧
    MathUtils2.createMatrixEvaluator ⟨1, 2, 2, 4⟩ MathUtils2.MatrixBackend.expLog = none := by
  refine ⟨C3_determinant_guards.1 _ (by norm_num [MathUtils2.determinant2]), ?_, ?_⟩
  · exact (C3_determinant_guards.2 _ (by norm_num [MathUtils2.determinant2])).1
  · exact (C3_determinant_guards.2 _ (by norm_num [MathUtils2.determinant2])).2

/-- C6: for A = [[1,1],[0,1]] (the unit shear) and the KAN backend,
getMatrixAt(t) on a fresh evaluator returns exactly [[1,t],[0,1]] for every
finite t and any option set: Q(t) and D(t) are the identity and
U(t) = I + t*logU with the logU-squared term identically zero. -/
theorem C6_shear_family_linear (t : ℝ) (options : MathUtils2.TransformOptions) :
    MathUtils2.calculateAt ⟨1, 1, 0, 1⟩ (MathUtils2.JsNum.num t) options
      MathUtils2.MatrixBackend.kan = some ⟨1, t, 0, 1⟩ := by
  simp only [MathUtils2.calculateAt, MathUtils2.createMatrixEvaluator,
    MathUtils2.createKanEvaluator, MathUtils2.buildKanPath_shear, Option.map_some']
  simp only [MathUtils2.getOrCreateMatrix, MathUtils2.timeKey, MathUtils2.emptyCache,
    MathUtils2.evaluateKanPath, MathUtils2.evaluateKanPathCore_shear]

/-- C1 (code bug in the source): the `linearEigenInterpolation` option is
ignored by the KAN evaluation.  `getMatrixAt` returns the same matrix for any
two option sets, and at A = [[4,0],[0,1]], t = 1/2 with the option set it
returns [[2,0],[0,1]] — the exponential rule `exp(t*log d)` — whereas the
linear rule demanded by the claim (and implemented by the never-called
`interpolateEigenvalue`) gives the diagonal value 1/2*4 + (1 - 1/2) = 5/2. -/
theorem C1_kan_linear_option_ignored :
    (∀ (A : MathUtils2.Matrix2) (t : MathUtils2.JsNum)
      (o1 o2 : MathUtils2.TransformOptions),
      MathUtils2.calculateAt A t o1 MathUtils2.MatrixBackend.kan =
        MathUtils2.calculateAt A t o2 MathUtils2.MatrixBackend.kan) ∧
    MathUtils2.calculateAt ⟨4, 0, 0, 1⟩ (MathUtils2.JsNum.num (1 / 2))
      ⟨true⟩ MathUtils2.MatrixBackend.kan = some ⟨2, 0, 0, 1⟩ ∧
    MathUtils2.interpolateEigenvalue 4 (1 / 2) ⟨true⟩ = 5 / 2 ∧
    (2 : ℝ) ≠ 5 / 2 := by
  refine ⟨?_, ?_, ?_, by norm_num⟩
  · intro A t o1 o2
    cases h : MathUtils2.buildKanPath A with
    | none =>
      simp [MathUtils2.calculateAt, MathUtils2.createMatrixEvaluator,
        MathUtils2.createKanEvaluator, h]
    | some data =>
      cases t <;>
        simp [MathUtils2.calculateAt, MathUtils2.createMatrixEvaluator,
          MathUtils2.createKanEvaluator, h, MathUtils2.getOrCreateMatrix,
          MathUtils2.timeKey, MathUtils2.emptyCache, MathUtils2.evaluateKanPath]
  · simp only [MathUtils2.calculateAt, MathUtils2.createMatrixEvaluator,
      MathUtils2.createKanEvaluator, MathUtils2.buildKanPath_diag41, Option.map_some']
    simp only [MathUtils2.getOrCreateMatrix, MathUtils2.timeKey, MathUtils2.emptyCache,
      MathUtils2.evaluateKanPath, MathUtils2.evaluateKanPathCore_diag41_half]
  · simp only [MathUtils2.interpolateEigenvalue, if_pos]
    norm_num

/-- C4: for every matrix A for which the KAN evaluator is successfully built,
getMatrixAt(0) on a fresh evaluator is exactly the identity matrix and
getMatrixAt(1) equals A within 1e-6 entrywise (in the exact real-arithmetic
model the reconstruction at t = 1 is exact). -/
theorem C4_kan_endpoint_laws (A : MathUtils2.Matrix2) (data : MathUtils2.KanPathData)
    (h : MathUtils2.buildKanPath A = some data) (options : MathUtils2.TransformOptions) :
    MathUtils2.calculateAt A (MathUtils2.JsNum.num 0) options
      MathUtils2.MatrixBackend.kan = some MathUtils2.identityMatrix ∧
    ∃ M, MathUtils2.calculateAt A (MathUtils2.JsNum.num 1) options
        MathUtils2.MatrixBackend.kan = some M ∧
      |M.m00 - A.m00| ≤ 1e-6 ∧ |M.m01 - A.m01| ≤ 1e-6 ∧
      |M.m10 - A.m10| ≤ 1e-6 ∧ |M.m11 - A.m11| ≤ 1e-6 := by
  have hdet : 0 < MathUtils2.determinant2 A := by
    by_contra hle
    rw [not_lt] at hle
    simp only [MathUtils2.buildKanPath, if_pos hle] at h
    exact Option.noConfusion h
  have hdata : data = MathUtils2.kanDataOf A := by
    rw [MathUtils2.buildKanPath_of_det_pos A hdet] at h
    exact (Option.some.inj h).symm
  subst hdata
  constructor
  · simp only [MathUtils2.calculateAt, MathUtils2.createMatrixEvaluator,
      MathUtils2.createKanEvaluator, h, Option.map_some']
    simp only [MathUtils2.getOrCreateMatrix, MathUtils2.timeKey, MathUtils2.emptyCache,
      MathUtils2.evaluateKanPath, MathUtils2.evaluateKanPathCore_zero]
  · refine ⟨A, ?_, by norm_num, by norm_num, by norm_num, by norm_num⟩
    simp only [MathUtils2.calculateAt, MathUtils2.createMatrixEvaluator,
      MathUtils2.createKanEvaluator, h, Option.map_some']
    simp only [MathUtils2.getOrCreateMatrix, MathUtils2.timeKey, MathUtils2.emptyCache,
      MathUtils2.evaluateKanPath, MathUtils2.evaluateKanPathCore_one A hdet]

/-- C4 witness: the endpoint laws instantiated on the unit shear. -/
theorem C4_kan_endpoint_laws_witness :
    MathUtils2.calculateAt ⟨1, 1, 0, 1⟩ (MathUtils2.JsNum.num 0) ⟨false⟩
      MathUtils2.MatrixBackend.kan = some MathUtils2.identityMatrix ∧
    ∃ M, MathUtils2.calculateAt ⟨1, 1, 0, 1⟩ (MathUtils2.JsNum.num 1) ⟨false⟩
        MathUtils2.MatrixBackend.kan = some M ∧
      |M.m00 - (1 : ℝ)| ≤ 1e-6 ∧ |M.m01 - (1 : ℝ)| ≤ 1e-6 ∧
      |M.m10 - (0 : ℝ)| ≤ 1e-6 ∧ |M.m11 - (1 : ℝ)| ≤ 1e-6 :=
  C4_kan_endpoint_laws ⟨1, 1, 0, 1⟩ MathUtils2.shearKanData
    MathUtils2.buildKanPath_shear ⟨false⟩

/-- C10: the per-evaluator cache quantizes time with toFixed(6): whenever two
finite times share the same six-decimal key, the second call returns the
matrix that was evaluated at the un-quantized first time; on the unit shear
with t1 = 0 and t2 = 1e-7 the returned matrix [[1,0],[0,1]] differs from the
fresh evaluation [[1,1e-7],[0,1]] at t2. -/
theorem C10_cache_time_quantization :
    (∀ (data : MathUtils2.KanPathData) (options : MathUtils2.TransformOptions)
      (x1 x2 : ℝ), x1 ≠ x2 → MathUtils2.round6 x1 = MathUtils2.round6 x2 →
      (MathUtils2.getOrCreateMatrix data
          (MathUtils2.getOrCreateMatrix data MathUtils2.emptyCache
            (MathUtils2.JsNum.num x1) options).2
          (MathUtils2.JsNum.num x2) options).1 =
        some (MathUtils2.evaluateKanPathCore x1 data)) ∧
    ((MathUtils2.getOrCreateMatrix MathUtils2.shearKanData
        (MathUtils2.getOrCreateMatrix MathUtils2.shearKanData MathUtils2.emptyCache
          (MathUtils2.JsNum.num 0) ⟨false⟩).2
        (MathUtils2.JsNum.num 1e-7) ⟨false⟩).1 = some ⟨1, 0, 0, 1⟩ ∧
      MathUtils2.evaluateKanPathCore 1e-7 MathUtils2.shearKanData = ⟨1, 1e-7, 0, 1⟩ ∧
      ((1e-7 : ℝ) ≠ 0)) := by
  have key : ∀ (data : MathUtils2.KanPathData) (options : MathUtils2.TransformOptions)
      (x1 x2 : ℝ), MathUtils2.round6 x1 = MathUtils2.round6 x2 →
      (MathUtils2.getOrCreateMatrix data
          (MathUtils2.getOrCreateMatrix data MathUtils2.emptyCache
            (MathUtils2.JsNum.num x1) options).2
          (MathUtils2.JsNum.num x2) options).1 =
        some (MathUtils2.evaluateKanPathCore x1 data) := by
    intro data options x1 x2 hkey
    simp only [MathUtils2.getOrCreateMatrix, MathUtils2.timeKey, MathUtils2.emptyCache,
      MathUtils2.evaluateKanPath]
    rw [← hkey]
    simp [MathUtils2.cacheInsert]
  refine ⟨fun data options x1 x2 _ hkey => key data options x1 x2 hkey, ?_, ?_, by norm_num⟩
  · rw [key MathUtils2.shearKanData ⟨false⟩ 0 1e-7
      (by rw [MathUtils2.round6_zero, MathUtils2.round6_em7])]
    rw [MathUtils2.evaluateKanPathCore_shear]
  · exact MathUtils2.evaluateKanPathCore_shear 1e-7

/-- C10 witness: the bucket-sharing law applied at the concrete pair of times
0 and 1e-7 on the unit shear data. -/
theorem C10_cache_time_quantization_witness :
    (MathUtils2.getOrCreateMatrix MathUtils2.shearKanData
        (MathUtils2.getOrCreateMatrix MathUtils2.shearKanData MathUtils2.emptyCache
          (MathUtils2.JsNum.num 0) ⟨true⟩).2
        (MathUtils2.JsNum.num 1e-7) ⟨true⟩).1 =
      some (MathUtils2.evaluateKanPathCore 0 MathUtils2.shearKanData) :=
  C10_cache_time_quantization.1 MathUtils2.shearKanData ⟨true⟩ 0 1e-7
    (by norm_num)
    (by rw [MathUtils2.round6_zero, MathUtils2.round6_em7])

/-- C7: for every successfully built evaluator of either backend and every
non-finite t (NaN or an infinity), getMatrixAt returns null rather than
throwing; and on the KAN path every finite t yields a matrix (null only for
non-finite t), for any cache state. -/
theorem C7_nonfinite_time_null :
    (∀ (data : MathUtils2.KanPathData) (cache : MathUtils2.KanCache)
      (options : MathUtils2.TransformOptions) (t : MathUtils2.JsNum),
      t.isFinite = false →
      (MathUtils2.getOrCreateMatrix data cache t options).1 = none) ∧
    (∀ (L : MathUtils2.CMat2) (cache : MathUtils2.ExpLogCache)
      (t : MathUtils2.JsNum), t.isFinite = false →
      (MathUtils2.expLogGetMatrixAt L cache t).1 = none) ∧
    (∀ (data : MathUtils2.KanPathData) (cache : MathUtils2.KanCache)
      (options : MathUtils2.TransformOptions) (x : ℝ),
      ∃ M, (MathUtils2.getOrCreateMatrix data cache
        (MathUtils2.JsNum.num x) options).1 = some M) ∧
    (∀ (data : MathUtils2.KanPathData) (x : ℝ),
      ∃ M, MathUtils2.evaluateKanPath (MathUtils2.JsNum.num x) data = some M) := by
  refine ⟨?_, ?_, ?_, fun data x => ⟨_, rfl⟩⟩
  · intro data cache options t ht
    cases t <;> simp_all [MathUtils2.JsNum.isFinite, MathUtils2.getOrCreateMatrix,
      MathUtils2.timeKey]
  · intro L cache t ht
    cases t <;> simp_all [MathUtils2.JsNum.isFinite, MathUtils2.expLogGetMatrixAt]
  · intro data cache options x
    simp only [MathUtils2.getOrCreateMatrix, MathUtils2.timeKey,
      MathUtils2.evaluateKanPath]
    cases hc : cache (MathUtils2.optionKey options) (MathUtils2.round6 x) with
    | none => exact ⟨_, rfl⟩
    | some m => exact ⟨m, rfl⟩

/-- C7 witness: the non-finite-time law applied at NaN and both infinities on
concrete evaluator data, and the finite-time law at t = 0. -/
theorem C7_nonfinite_time_null_witness :
    (MathUtils2.getOrCreateMatrix MathUtils2.shearKanData MathUtils2.emptyCache
      MathUtils2.JsNum.nan ⟨false⟩).1 = none ∧
    (MathUtils2.getOrCreateMatrix MathUtils2.shearKanData MathUtils2.emptyCache
      MathUtils2.JsNum.posInf ⟨false⟩).1 = none ∧
    (MathUtils2.getOrCreateMatrix MathUtils2.shearKanData MathUtils2.emptyCache
      MathUtils2.JsNum.negInf ⟨false⟩).1 = none ∧
    (MathUtils2.expLogGetMatrixAt 0 (fun _ => none) MathUtils2.JsNum.nan).1 = none ∧
    ∃ M, (MathUtils2.getOrCreateMatrix MathUtils2.shearKanData MathUtils2.emptyCache
      (MathUtils2.JsNum.num 0) ⟨false⟩).1 = some M :=
  ⟨C7_nonfinite_time_null.1 MathUtils2.shearKanData MathUtils2.emptyCache ⟨false⟩
      MathUtils2.JsNum.nan rfl,
   C7_nonfinite_time_null.1 MathUtils2.shearKanData MathUtils2.emptyCache ⟨false⟩
      MathUtils2.JsNum.posInf rfl,
   C7_nonfinite_time_null.1 MathUtils2.shearKanData MathUtils2.emptyCache ⟨false⟩
      MathUtils2.JsNum.negInf rfl,
   C7_nonfinite_time_null.2.1 0 (fun _ => none) MathUtils2.JsNum.nan rfl,
   C7_nonfinite_time_null.2.2.1 MathUtils2.shearKanData MathUtils2.emptyCache ⟨false⟩ 0⟩

/-- C2 counterexample: A = [[1e-5,0],[0,1e-5]] has both eigenvalues equal to
1e-5 — strictly positive reals — yet createMatrixEvaluator(A, "exp-log")
returns null, because |det(A)| = 1e-10 falls below the EPSILON guard.  This
refutes the claim's second half as stated. -/
theorem C2_explog_nonnull_counterexample :
    MathUtils2.createMatrixEvaluator ⟨1e-5, 0, 0, 1e-5⟩
      MathUtils2.MatrixBackend.expLog = none ∧
    (MathUtils2.eig2 ⟨1e-5, 0, 0, 1e-5⟩).l1.im = 0 ∧
    (0 : ℝ) < (MathUtils2.eig2 ⟨1e-5, 0, 0, 1e-5⟩).l1.re ∧
    (MathUtils2.eig2 ⟨1e-5, 0, 0, 1e-5⟩).l2.im = 0 ∧
    (0 : ℝ) < (MathUtils2.eig2 ⟨1e-5, 0, 0, 1e-5⟩).l2.re := by
  have heig : MathUtils2.eig2 ⟨1e-5, 0, 0, 1e-5⟩ =
      ⟨((1e-5 : ℝ) : ℂ), (1, 0), ((1e-5 : ℝ) : ℂ), (0, 1)⟩ := by
    rw [MathUtils2.eig2, if_pos]
    exact ⟨rfl, rfl⟩
  refine ⟨?_, by rw [heig]; norm_num, by rw [heig]; norm_num,
    by rw [heig]; norm_num, by rw [heig]; norm_num⟩
  simp only [MathUtils2.createMatrixEvaluator, MathUtils2.createExpLogEvaluator]
  rw [if_pos (by
    have hd : MathUtils2.determinant2 ⟨1e-5, 0, 0, 1e-5⟩ = 1e-10 := by
      rw [MathUtils2.determinant2]
      norm_num
    rw [hd, abs_of_pos (by norm_num)]
    norm_num [MathUtils2.EPSILON])]
  rfl

/-- C2 (amended): createMatrixEvaluator(A, "exp-log") returns null whenever
some eigenvalue has |im| ≤ 1e-6 and re ≤ 1e-9; and it returns a non-null
evaluator whenever all eigenvalues are admissible (strictly positive reals
with re > 1e-9, or |im| > 1e-6), provided additionally that |det(A)| ≥ 1e-9
and the eigendecomposition is non-defective (invertible eigenvector matrix),
which the counterexample shows are necessary. -/
theorem C2_explog_admissibility :
    (∀ A : MathUtils2.Matrix2,
      ((|(MathUtils2.eig2 A).l1.im| ≤ MathUtils2.IMAGINARY_TOLERANCE ∧
         (MathUtils2.eig2 A).l1.re ≤ MathUtils2.EPSILON) ∨
       (|(MathUtils2.eig2 A).l2.im| ≤ MathUtils2.IMAGINARY_TOLERANCE ∧
         (MathUtils2.eig2 A).l2.re ≤ MathUtils2.EPSILON)) →
      MathUtils2.createMatrixEvaluator A MathUtils2.MatrixBackend.expLog = none) ∧
    (∀ A : MathUtils2.Matrix2,
      MathUtils2.EPSILON ≤ |MathUtils2.determinant2 A| →
      MathUtils2.eigVdet (MathUtils2.eig2 A) ≠ 0 →
      MathUtils2.isExpLogEigenvalueAllowed (MathUtils2.eig2 A).l1 →
      MathUtils2.isExpLogEigenvalueAllowed (MathUtils2.eig2 A).l2 →
      MathUtils2.createMatrixEvaluator A MathUtils2.MatrixBackend.expLog =
        some (MathUtils2.EvaluatorModel.expLog (MathUtils2.expLogMatrix A))) := by
  constructor
  · intro A hbad
    have hnotall : ¬ (MathUtils2.isExpLogEigenvalueAllowed (MathUtils2.eig2 A).l1 ∧
        MathUtils2.isExpLogEigenvalueAllowed (MathUtils2.eig2 A).l2) := by
      rcases hbad with ⟨him, hre⟩ | ⟨him, hre⟩
      · rintro ⟨h1, _⟩
        rcases h1 with h | h
        · exact absurd him (not_le.mpr h)
        · exact absurd hre (not_le.mpr h)
      · rintro ⟨_, h2⟩
        rcases h2 with h | h
        · exact absurd him (not_le.mpr h)
        · exact absurd hre (not_le.mpr h)
    simp only [MathUtils2.createMatrixEvaluator, MathUtils2.createExpLogEvaluator]
    by_cases h1 : |MathUtils2.determinant2 A| < MathUtils2.EPSILON
    · rw [if_pos h1]
      rfl
    · rw [if_neg h1]
      by_cases h2 : Complex.abs (MathUtils2.eig2 A).l1 < MathUtils2.EPSILON ∨
          Complex.abs (MathUtils2.eig2 A).l2 < MathUtils2.EPSILON
      · rw [if_pos h2]
        rfl
      · rw [if_neg h2, if_pos hnotall]
        rfl
  · intro A hdet hV h1 h2
    have htol : MathUtils2.EPSILON < MathUtils2.IMAGINARY_TOLERANCE := by
      norm_num [MathUtils2.EPSILON, MathUtils2.IMAGINARY_TOLERANCE]
    have habs : ∀ z : ℂ, MathUtils2.isExpLogEigenvalueAllowed z →
        ¬ Complex.abs z < MathUtils2.EPSILON := by
      intro z hz
      rw [not_lt]
      rcases hz with h | h
      · calc MathUtils2.EPSILON ≤ |z.im| := by linarith
          _ ≤ Complex.abs z := Complex.abs_im_le_abs z
      · calc MathUtils2.EPSILON ≤ |z.re| := le_trans (by linarith) (le_abs_self _)
          _ ≤ Complex.abs z := Complex.abs_re_le_abs z
    simp only [MathUtils2.createMatrixEvaluator, MathUtils2.createExpLogEvaluator]
    rw [if_neg (not_lt.mpr hdet)]
    rw [if_neg (by push_neg; exact ⟨not_lt.mp (habs _ h1), not_lt.mp (habs _ h2)⟩)]
    rw [if_neg (not_not_intro ⟨h1, h2⟩)]
    rw [if_neg hV]
    rfl

/-- C2 witness: the amended non-null law applied to A = [[2,0],[0,1/2]],
whose eigenvalues 2 and 1/2 are admissible positive reals, with unit
determinant and identity eigenvector matrix. -/
theorem C2_explog_admissibility_witness :
    MathUtils2.createMatrixEvaluator ⟨2, 0, 0, 1 / 2⟩ MathUtils2.MatrixBackend.expLog =
      some (MathUtils2.EvaluatorModel.expLog
        (MathUtils2.expLogMatrix ⟨2, 0, 0, 1 / 2⟩)) := by
  have heig : MathUtils2.eig2 ⟨2, 0, 0, 1 / 2⟩ =
      ⟨((2 : ℝ) : ℂ), (1, 0), (((1 : ℝ) / 2 : ℝ) : ℂ), (0, 1)⟩ := by
    rw [MathUtils2.eig2, if_pos]
    exact ⟨rfl, rfl⟩
  refine C2_explog_admissibility.2 ⟨2, 0, 0, 1 / 2⟩
    (by norm_num [MathUtils2.determinant2, MathUtils2.EPSILON]) ?_ ?_ ?_
  · rw [heig]
    simp only [MathUtils2.eigVdet]
    norm_num
  · rw [heig]
    right
    norm_num [MathUtils2.EPSILON]
  · rw [heig]
    right
    norm_num [MathUtils2.EPSILON]

namespace MathUtils2

/-- Helper: a complex matrix is real-entried when every entry has zero
imaginary part. -/
def IsRealMat (M : CMat2) : Prop := ∀ i j, (M i j).im = 0

/-- Helper: a real-entried matrix is fixed by entrywise conjugation. -/
lemma map_conj_of_isRealMat (M : CMat2) (h : IsRealMat M) :
    M.map (starRingEnd ℂ) = M := by
  ext i j
  rw [Matrix.map_apply]
  exact Complex.conj_eq_iff_im.mpr (h i j)

/-- Helper: a matrix fixed by entrywise conjugation is real-entried. -/
lemma isRealMat_of_map_conj (M : CMat2) (h : M.map (starRingEnd ℂ) = M) :
    IsRealMat M := by
  intro i j
  have h2 := congrArg (fun N : CMat2 => N i j) h
  simp only [Matrix.map_apply] at h2
  exact Complex.conj_eq_iff_im.mp h2

/-- Helper: entrywise conjugation is transpose of conjugate-transpose. -/
lemma map_conj_eq_conjTranspose_transpose (M : CMat2) :
    M.map (starRingEnd ℂ) = (Matrix.conjTranspose M).transpose := by
  ext i j
  simp [Matrix.conjTranspose_apply, Matrix.map_apply]

/-- Helper: the matrix exponential commutes with entrywise conjugation. -/
lemma exp_map_conj (M : CMat2) :
    NormedSpace.exp ℂ (M.map (starRingEnd ℂ)) =
      (NormedSpace.exp ℂ M).map (starRingEnd ℂ) := by
  rw [map_conj_eq_conjTranspose_transpose, map_conj_eq_conjTranspose_transpose,
    Matrix.exp_transpose, Matrix.exp_conjTranspose]

/-- Helper: the exponential of a real-entried matrix is real-entried. -/
lemma exp_isRealMat (M : CMat2) (h : IsRealMat M) :
    IsRealMat (NormedSpace.exp ℂ M) := by
  apply isRealMat_of_map_conj
  rw [← exp_map_conj, map_conj_of_isRealMat M h]

/-- Helper: a real scalar multiple of a real-entried matrix is real-entried. -/
lemma smul_isRealMat (t : ℝ) (M : CMat2) (h : IsRealMat M) :
    IsRealMat ((t : ℂ) • M) := by
  intro i j
  simp [Matrix.smul_apply, Complex.mul_im, h i j]

/-- Helper: taking real parts of a product of real-entried matrices agrees
with the kernel's 2x2 product of the real parts. -/
lemma toMatrix2_mul (X Y : CMat2) (hX : IsRealMat X) (hY : IsRealMat Y) :
    toMatrix2 (X * Y) = matrixMultiply (toMatrix2 X) (toMatrix2 Y) := by
  replace hX : ∀ i j, (X i j).im = 0 := hX
  replace hY : ∀ i j, (Y i j).im = 0 := hY
  ext <;>
    simp only [toMatrix2, matrixMultiply, Matrix.mul_apply, Fin.sum_univ_two,
      Complex.add_re, Complex.mul_re, hX, hY] <;>
    ring

end MathUtils2

namespace MathUtils2

/-- Helper: closed form of the entries of `V * (logDiag * Vinv)`. -/
lemma vLogVinv_entries (e : Eig2Result) :
    eigV e * (eigLogDiag e * eigVinv e) =
      Matrix.of
        ![![(e.v1.1 * e.v2.2 * Complex.log e.l1 -
              e.v2.1 * e.v1.2 * Complex.log e.l2) / eigVdet e,
            e.v1.1 * e.v2.1 * (Complex.log e.l2 - Complex.log e.l1) / eigVdet e],
          ![e.v1.2 * e.v2.2 * (Complex.log e.l1 - Complex.log e.l2) / eigVdet e,
            (e.v1.1 * e.v2.2 * Complex.log e.l2 -
              e.v2.1 * e.v1.2 * Complex.log e.l1) / eigVdet e]] := by
  ext i j
  fin_cases i <;> fin_cases j <;>
    simp [eigV, eigVinv, eigLogDiag, Matrix.mul_apply, Fin.sum_univ_two,
      div_add_div_same, mul_div_assoc] <;>
    ring

/-- Helper: when the discriminant is nonnegative the first root is the real
number `(tr + sqrt(disc))/2`. -/
lemma eigA1_eq_ofReal (A : Matrix2) (h : 0 ≤ disc2 A) :
    eigA1 A = (((A.m00 + A.m11 + Real.sqrt (disc2 A)) / 2 : ℝ) : ℂ) := by
  rw [eigA1, sqrtDisc2, if_pos h]
  push_cast
  ring

/-- Helper: when the discriminant is nonnegative the second root is the real
number `(tr - sqrt(disc))/2`. -/
lemma eigA2_eq_ofReal (A : Matrix2) (h : 0 ≤ disc2 A) :
    eigA2 A = (((A.m00 + A.m11 - Real.sqrt (disc2 A)) / 2 : ℝ) : ℂ) := by
  rw [eigA2, sqrtDisc2, if_pos h]
  push_cast
  ring

/-- Helper: real/imaginary decomposition of the first root when the
discriminant is negative. -/
lemma eigA1_of_neg (A : Matrix2) (h : ¬ 0 ≤ disc2 A) :
    eigA1 A = (((A.m00 + A.m11) / 2 : ℝ) : ℂ) +
      ((Real.sqrt (-disc2 A) / 2 : ℝ) : ℂ) * Complex.I := by
  rw [eigA1, sqrtDisc2, if_neg h]
  push_cast
  ring

/-- Helper: real/imaginary decomposition of the second root when the
discriminant is negative. -/
lemma eigA2_of_neg (A : Matrix2) (h : ¬ 0 ≤ disc2 A) :
    eigA2 A = (((A.m00 + A.m11) / 2 : ℝ) : ℂ) -
      ((Real.sqrt (-disc2 A) / 2 : ℝ) : ℂ) * Complex.I := by
  rw [eigA2, sqrtDisc2, if_neg h]
  push_cast
  ring

/-- Helper: when the discriminant is negative the two roots are complex
conjugates and the first has strictly positive imaginary part. -/
lemma eigA2_conj_of_neg (A : Matrix2) (h : ¬ 0 ≤ disc2 A) :
    eigA2 A = (starRingEnd ℂ) (eigA1 A) ∧ 0 < (eigA1 A).im := by
  have hneg : 0 < -disc2 A := by linarith [not_le.mp h]
  rw [eigA1_of_neg A h, eigA2_of_neg A h]
  constructor
  · rw [map_add, map_mul, Complex.conj_ofReal, Complex.conj_ofReal, Complex.conj_I]
    ring
  · simp only [Complex.add_im, Complex.ofReal_im, Complex.mul_im, Complex.ofReal_re,
      Complex.I_im, Complex.I_re]
    have : 0 < Real.sqrt (-disc2 A) := Real.sqrt_pos.mpr hneg
    nlinarith

/-- Helper: when the discriminant is negative the principal logarithms of the
two roots are conjugate (the first root is off the negative real axis). -/
lemma log_eigA2_conj (A : Matrix2) (h : ¬ 0 ≤ disc2 A) :
    Complex.log (eigA2 A) = (starRingEnd ℂ) (Complex.log (eigA1 A)) := by
  obtain ⟨hc, him⟩ := eigA2_conj_of_neg A h
  rw [hc, Complex.log_conj]
  intro harg
  rw [Complex.arg_eq_pi_iff] at harg
  linarith [harg.2]

/-- Helper: an admissible eigenvalue that is a real coercion is strictly
positive. -/
lemma allowed_ofReal_pos (x : ℝ) (h : isExpLogEigenvalueAllowed ((x : ℝ) : ℂ)) :
    0 < x := by
  rcases h with h | h
  · rw [Complex.ofReal_im] at h
    norm_num [IMAGINARY_TOLERANCE] at h
  · rw [Complex.ofReal_re] at h
    have : (0 : ℝ) < EPSILON := by norm_num [EPSILON]
    linarith

end MathUtils2

namespace MathUtils2

/-- Helper: the log-similarity product is real-entried when every eigenpair
component and both logarithms are fixed by conjugation. -/
lemma vLogVinv_real_of_conj_fixed (e : Eig2Result)
    (hv1 : (starRingEnd ℂ) e.v1.1 = e.v1.1) (hv2 : (starRingEnd ℂ) e.v1.2 = e.v1.2)
    (hv3 : (starRingEnd ℂ) e.v2.1 = e.v2.1) (hv4 : (starRingEnd ℂ) e.v2.2 = e.v2.2)
    (hl1 : (starRingEnd ℂ) (Complex.log e.l1) = Complex.log e.l1)
    (hl2 : (starRingEnd ℂ) (Complex.log e.l2) = Complex.log e.l2) :
    IsRealMat (eigV e * (eigLogDiag e * eigVinv e)) := by
  rw [vLogVinv_entries]
  intro i j
  apply Complex.conj_eq_iff_im.mp
  fin_cases i <;> fin_cases j <;>
    simp [eigVdet, map_div₀, map_sub, map_mul, hv1, hv2, hv3, hv4, hl1, hl2]

/-- Helper: the log-similarity product is real-entried when conjugation swaps
the two eigenpairs (the complex-conjugate-pair case). -/
lemma vLogVinv_real_of_conj_swap (e : Eig2Result)
    (hs1 : (starRingEnd ℂ) e.v1.1 = e.v2.1) (hs2 : (starRingEnd ℂ) e.v1.2 = e.v2.2)
    (hs3 : (starRingEnd ℂ) e.v2.1 = e.v1.1) (hs4 : (starRingEnd ℂ) e.v2.2 = e.v1.2)
    (hl1 : (starRingEnd ℂ) (Complex.log e.l1) = Complex.log e.l2)
    (hl2 : (starRingEnd ℂ) (Complex.log e.l2) = Complex.log e.l1) :
    IsRealMat (eigV e * (eigLogDiag e * eigVinv e)) := by
  have hd : (starRingEnd ℂ) (eigVdet e) = -eigVdet e := by
    rw [eigVdet, map_sub, map_mul, map_mul, hs1, hs2, hs3, hs4]
    ring
  have key : ∀ n : ℂ, (starRingEnd ℂ) n = -n → (n / eigVdet e).im = 0 := by
    intro n hn
    apply Complex.conj_eq_iff_im.mp
    rw [map_div₀, hn, hd, neg_div_neg_eq]
  rw [vLogVinv_entries]
  intro i j
  fin_cases i <;> fin_cases j <;>
    simp only [Matrix.of_apply, Fin.zero_eta, Fin.mk_one, Matrix.cons_val',
      Matrix.cons_val_zero, Matrix.cons_val_one, Matrix.head_cons,
      Matrix.empty_val', Matrix.cons_val_fin_one, Matrix.head_fin_const,
      Fin.isValue]
  · exact key _ (by
      simp only [map_sub, map_mul, hs1, hs2, hs3, hs4, hl1, hl2]
      ring)
  · exact key _ (by
      simp only [map_sub, map_mul, hs1, hs2, hs3, hs4, hl1, hl2]
      ring)
  · exact key _ (by
      simp only [map_sub, map_mul, hs1, hs2, hs3, hs4, hl1, hl2]
      ring)
  · exact key _ (by
      simp only [map_sub, map_mul, hs1, hs2, hs3, hs4, hl1, hl2]
      ring)

end MathUtils2

namespace MathUtils2

/-- Helper: for every matrix whose eigenvalues pass the admissibility check,
the log matrix `V * logDiag * Vinv` built by the exp-log backend is
real-entried (in exact arithmetic the imaginary parts cancel). -/
lemma expLogMatrix_isReal (A : Matrix2)
    (h1 : isExpLogEigenvalueAllowed (eig2 A).l1)
    (h2 : isExpLogEigenvalueAllowed (eig2 A).l2) :
    IsRealMat (expLogMatrix A) := by
  rw [expLogMatrix]
  by_cases hbc : A.m01 = 0 ∧ A.m10 = 0
  · have he : eig2 A = ⟨((A.m00 : ℝ) : ℂ), (1, 0), ((A.m11 : ℝ) : ℂ), (0, 1)⟩ := by
      rw [eig2, if_pos hbc]
    rw [he] at h1 h2 ⊢
    have ha : 0 < A.m00 := allowed_ofReal_pos _ h1
    have hd : 0 < A.m11 := allowed_ofReal_pos _ h2
    apply vLogVinv_real_of_conj_fixed
    · exact map_one _
    · exact map_zero _
    · exact map_zero _
    · exact map_one _
    · show (starRingEnd ℂ) (Complex.log ((A.m00 : ℝ) : ℂ)) = _
      rw [← Complex.ofReal_log ha.le, Complex.conj_ofReal]
    · show (starRingEnd ℂ) (Complex.log ((A.m11 : ℝ) : ℂ)) = _
      rw [← Complex.ofReal_log hd.le, Complex.conj_ofReal]
  · by_cases hb : A.m01 ≠ 0
    · have he : eig2 A = ⟨eigA1 A, (((A.m01 : ℝ) : ℂ), eigA1 A - ((A.m00 : ℝ) : ℂ)),
          eigA2 A, (((A.m01 : ℝ) : ℂ), eigA2 A - ((A.m00 : ℝ) : ℂ))⟩ := by
        rw [eig2, if_neg hbc, if_pos hb]
      rw [he] at h1 h2 ⊢
      by_cases hdisc : 0 ≤ disc2 A
      · have e1 := eigA1_eq_ofReal A hdisc
        have e2 := eigA2_eq_ofReal A hdisc
        have hl1pos : 0 < (A.m00 + A.m11 + Real.sqrt (disc2 A)) / 2 := by
          apply allowed_ofReal_pos
          rw [← e1]
          exact h1
        have hl2pos : 0 < (A.m00 + A.m11 - Real.sqrt (disc2 A)) / 2 := by
          apply allowed_ofReal_pos
          rw [← e2]
          exact h2
        apply vLogVinv_real_of_conj_fixed
        · exact Complex.conj_ofReal _
        · show (starRingEnd ℂ) (eigA1 A - _) = _
          rw [e1, map_sub, Complex.conj_ofReal, Complex.conj_ofReal]
        · exact Complex.conj_ofReal _
        · show (starRingEnd ℂ) (eigA2 A - _) = _
          rw [e2, map_sub, Complex.conj_ofReal, Complex.conj_ofReal]
        · show (starRingEnd ℂ) (Complex.log (eigA1 A)) = _
          rw [e1, ← Complex.ofReal_log hl1pos.le, Complex.conj_ofReal]
        · show (starRingEnd ℂ) (Complex.log (eigA2 A)) = _
          rw [e2, ← Complex.ofReal_log hl2pos.le, Complex.conj_ofReal]
      · obtain ⟨hc, _⟩ := eigA2_conj_of_neg A hdisc
        have hc1 : (starRingEnd ℂ) (eigA1 A) = eigA2 A := hc.symm
        have hc2 : (starRingEnd ℂ) (eigA2 A) = eigA1 A := by
          rw [hc, Complex.conj_conj]
        have hlog := log_eigA2_conj A hdisc
        apply vLogVinv_real_of_conj_swap
        · exact Complex.conj_ofReal _
        · show (starRingEnd ℂ) (eigA1 A - _) = _
          rw [map_sub, hc1, Complex.conj_ofReal]
        · exact Complex.conj_ofReal _
        · show (starRingEnd ℂ) (eigA2 A - _) = _
          rw [map_sub, hc2, Complex.conj_ofReal]
        · exact hlog.symm
        · show (starRingEnd ℂ) (Complex.log (eigA2 A)) = _
          rw [hlog, Complex.conj_conj]
    · have hc : A.m10 ≠ 0 := by
        intro h0
        exact hbc ⟨not_ne_iff.mp hb, h0⟩
      have he : eig2 A = ⟨eigA1 A, (eigA1 A - ((A.m11 : ℝ) : ℂ), ((A.m10 : ℝ) : ℂ)),
          eigA2 A, (eigA2 A - ((A.m11 : ℝ) : ℂ), ((A.m10 : ℝ) : ℂ))⟩ := by
        rw [eig2, if_neg hbc, if_neg hb]
      rw [he] at h1 h2 ⊢
      by_cases hdisc : 0 ≤ disc2 A
      · have e1 := eigA1_eq_ofReal A hdisc
        have e2 := eigA2_eq_ofReal A hdisc
        have hl1pos : 0 < (A.m00 + A.m11 + Real.sqrt (disc2 A)) / 2 := by
          apply allowed_ofReal_pos
          rw [← e1]
          exact h1
        have hl2pos : 0 < (A.m00 + A.m11 - Real.sqrt (disc2 A)) / 2 := by
          apply allowed_ofReal_pos
          rw [← e2]
          exact h2
        apply vLogVinv_real_of_conj_fixed
        · show (starRingEnd ℂ) (eigA1 A - _) = _
          rw [e1, map_sub, Complex.conj_ofReal, Complex.conj_ofReal]
        · exact Complex.conj_ofReal _
        · show (starRingEnd ℂ) (eigA2 A - _) = _
          rw [e2, map_sub, Complex.conj_ofReal, Complex.conj_ofReal]
        · exact Complex.conj_ofReal _
        · show (starRingEnd ℂ) (Complex.log (eigA1 A)) = _
          rw [e1, ← Complex.ofReal_log hl1pos.le, Complex.conj_ofReal]
        · show (starRingEnd ℂ) (Complex.log (eigA2 A)) = _
          rw [e2, ← Complex.ofReal_log hl2pos.le, Complex.conj_ofReal]
      · obtain ⟨hcc, _⟩ := eigA2_conj_of_neg A hdisc
        have hc1 : (starRingEnd ℂ) (eigA1 A) = eigA2 A := hcc.symm
        have hc2 : (starRingEnd ℂ) (eigA2 A) = eigA1 A := by
          rw [hcc, Complex.conj_conj]
        have hlog := log_eigA2_conj A hdisc
        apply vLogVinv_real_of_conj_swap
        · show (starRingEnd ℂ) (eigA1 A - _) = _
          rw [map_sub, hc1, Complex.conj_ofReal]
        · exact Complex.conj_ofReal _
        · show (starRingEnd ℂ) (eigA2 A - _) = _
          rw [map_sub, hc2, Complex.conj_ofReal]
        · exact Complex.conj_ofReal _
        · exact hlog.symm
        · show (starRingEnd ℂ) (Complex.log (eigA2 A)) = _
          rw [hlog, Complex.conj_conj]

end MathUtils2

namespace MathUtils2

/-- Helper: concrete successful exp-log construction on A = [[2,0],[0,1/2]],
used to instantiate theorems whose hypotheses require a built evaluator. -/
lemma createMatrixEvaluator_two_half_explog :
    createMatrixEvaluator ⟨2, 0, 0, 1 / 2⟩ MatrixBackend.expLog =
      some (EvaluatorModel.expLog (expLogMatrix ⟨2, 0, 0, 1 / 2⟩)) := by
  have heig : eig2 ⟨2, 0, 0, 1 / 2⟩ =
      ⟨((2 : ℝ) : ℂ), (1, 0), (((1 : ℝ) / 2 : ℝ) : ℂ), (0, 1)⟩ := by
    rw [eig2, if_pos]
    exact ⟨rfl, rfl⟩
  simp only [createMatrixEvaluator, createExpLogEvaluator, heig]
  rw [if_neg (by
    rw [show determinant2 ⟨2, 0, 0, 1 / 2⟩ = 1 by rw [determinant2]; norm_num]
    norm_num [EPSILON])]
  rw [if_neg (by
    push_neg
    constructor <;>
      · rw [Complex.abs_ofReal, abs_of_pos (by norm_num)]
        norm_num [EPSILON])]
  rw [if_neg (by
    rw [not_not]
    constructor <;>
      · right
        norm_num [EPSILON])]
  rw [if_neg (by
    simp only [eigVdet]
    norm_num)]
  rfl

end MathUtils2

/-- C5: for every matrix A accepted by the exp-log backend and all finite
t1, t2, the evaluator satisfies the group-homomorphism law
getMatrixAt(t1+t2) = getMatrixAt(t1) * getMatrixAt(t2); in the exact
real-arithmetic model the law holds exactly, hence within any numerical
tolerance. -/
theorem C5_explog_homomorphism (A : MathUtils2.Matrix2) (L : MathUtils2.CMat2)
    (h : MathUtils2.createMatrixEvaluator A MathUtils2.MatrixBackend.expLog =
      some (MathUtils2.EvaluatorModel.expLog L)) (t1 t2 : ℝ) :
    MathUtils2.expLogEvalCore L (t1 + t2) =
      MathUtils2.matrixMultiply (MathUtils2.expLogEvalCore L t1)
        (MathUtils2.expLogEvalCore L t2) := by
  have h' : MathUtils2.createExpLogEvaluator A = some L := by
    simp only [MathUtils2.createMatrixEvaluator, Option.map_eq_some'] at h
    obtain ⟨L', hL', heq⟩ := h
    cases heq
    exact hL'
  simp only [MathUtils2.createExpLogEvaluator] at h'
  split_ifs at h' with hg1 hg2 hg3 hg4
  have hL : L = MathUtils2.expLogMatrix A := (Option.some.inj h').symm
  subst hL
  obtain ⟨ha1, ha2⟩ := hg3
  have hreal : MathUtils2.IsRealMat (MathUtils2.expLogMatrix A) :=
    MathUtils2.expLogMatrix_isReal A ha1 ha2
  have key : ∀ s : ℝ,
      MathUtils2.IsRealMat (NormedSpace.exp ℂ
        ((s : ℂ) • MathUtils2.expLogMatrix A)) :=
    fun s => MathUtils2.exp_isRealMat _ (MathUtils2.smul_isRealMat s _ hreal)
  have hsum : ((t1 + t2 : ℝ) : ℂ) • MathUtils2.expLogMatrix A =
      (t1 : ℂ) • MathUtils2.expLogMatrix A +
        (t2 : ℂ) • MathUtils2.expLogMatrix A := by
    rw [show ((t1 + t2 : ℝ) : ℂ) = (t1 : ℂ) + (t2 : ℂ) by push_cast; ring,
      add_smul]
  have hcomm : Commute ((t1 : ℂ) • MathUtils2.expLogMatrix A)
      ((t2 : ℂ) • MathUtils2.expLogMatrix A) :=
    ((Commute.refl _).smul_left _).smul_right _
  rw [MathUtils2.expLogEvalCore, MathUtils2.expLogEvalCore, MathUtils2.expLogEvalCore,
    hsum, Matrix.exp_add_of_commute ℂ _ _ hcomm]
  exact MathUtils2.toMatrix2_mul _ _ (key t1) (key t2)

/-- C5 witness: the homomorphism law instantiated on the diagonal matrix
[[2,0],[0,1/2]] at t1 = t2 = 1. -/
theorem C5_explog_homomorphism_witness :
    MathUtils2.expLogEvalCore (MathUtils2.expLogMatrix ⟨2, 0, 0, 1 / 2⟩) (1 + 1) =
      MathUtils2.matrixMultiply
        (MathUtils2.expLogEvalCore (MathUtils2.expLogMatrix ⟨2, 0, 0, 1 / 2⟩) 1)
        (MathUtils2.expLogEvalCore (MathUtils2.expLogMatrix ⟨2, 0, 0, 1 / 2⟩) 1) :=
  C5_explog_homomorphism ⟨2, 0, 0, 1 / 2⟩ _
    MathUtils2.createMatrixEvaluator_two_half_explog 1 1
